import Mathlib

/-!
Verification of the b-side music capture core: a shallow embedding of the
MidiRecorder (event capture and binary event-file encoding), the Metronome
(beat clock with 4-beat count-in), and the PrecisionMIDIPlayer (forced-duration
playback scheduler), together with proofs of the spec's testable properties.

Numeric conventions: JavaScript floating-point time values are embedded as
exact rationals (ℚ); `Math.round` is embedded as `fun q => ⌊q + 1/2⌋`
(half-up rounding, matching JS on all inputs); byte sequences are `List ℕ`
with the `Uint8Array` truncation embedded as `% 256`.
-/

namespace BSide

/-- NoteEvent as captured by the recorder: note number, velocity, time in
seconds relative to session start, and a note-on/note-off flag. -/
structure NoteEvent where
  note : ℕ
  velocity : ℕ
  time : ℚ
  isNoteOn : Bool
deriving DecidableEq, Repr

/-- Default note event used with `List.getD`. -/
def noteD : NoteEvent := ⟨0, 0, 0, false⟩

/-- JavaScript `Math.round`: rounds half-up toward positive infinity. -/
def jsRound (q : ℚ) : ℤ := ⌊q + 1/2⌋

/-- Loop of `variableLengthQuantity`: while `value > 0`, prepend the low
7 bits with the continuation bit `0x80` set, then shift right by 7. -/
def vlqAux (v : ℕ) (acc : List ℕ) : List ℕ :=
  if v = 0 then acc else vlqAux (v / 128) ((v % 128 + 128) :: acc)
termination_by v
decreasing_by exact Nat.div_lt_self (Nat.pos_of_ne_zero (by assumption)) (by norm_num)

/-- MidiRecorder.variableLengthQuantity on a non-negative value: big-endian
7-bit groups, continuation bit set on all but the final byte. -/
def variableLengthQuantity (n : ℕ) : List ℕ :=
  vlqAux (n / 128) [n % 128]

/-- MidiRecorder.variableLengthQuantity on an arbitrary 32-bit integer, as the
JS code behaves: for `value ≥ 0` the usual VLQ; for `value < 0` the loop body
emits `value & 0x7f` (the low 7 bits of the two's complement, i.e. `value`
mod 128) and the `while (value > 0)` loop never runs, so a single byte is
emitted and the negative value is silently mis-encoded, not clamped. -/
def jsVlq (v : ℤ) : List ℕ :=
  if 0 ≤ v then variableLengthQuantity v.toNat else [(v % 128).toNat]

/-- MidiRecorder.int32ToBytes: big-endian 4-byte encoding. -/
def int32ToBytes (v : ℕ) : List ℕ :=
  [v / 2 ^ 24 % 256, v / 2 ^ 16 % 256, v / 2 ^ 8 % 256, v % 256]

/-- Fixed 14-byte file header chunk: magic "MThd", length 6, format 0,
one track, 96 ticks per quarter note. -/
def headerBytes : List ℕ :=
  [77, 84, 104, 100, 0, 0, 0, 6, 0, 0, 0, 1, 0, 96]

/-- Ordering used by the encoder's `sort((a, b) => a.time - b.time)`:
ascending by time. -/
def timeLE (a b : NoteEvent) : Prop := a.time ≤ b.time

instance : DecidableRel timeLE := fun a b => inferInstanceAs (Decidable (a.time ≤ b.time))

instance : IsTotal NoteEvent timeLE := ⟨fun a b => le_total a.time b.time⟩

instance : IsTrans NoteEvent timeLE := ⟨fun _ _ _ h1 h2 => le_trans h1 h2⟩

/-- Stable ascending sort by time, as JS `Array.prototype.sort` with the
comparator `(a, b) => a.time - b.time`. A stable sort's output is uniquely
determined by the total preorder, so insertion sort is extensionally the
JS sort. -/
def sortNotes (notes : List NoteEvent) : List NoteEvent :=
  List.insertionSort timeLE notes

/-- Time of the earliest event (`sortedNotes[0].time`), or 0 for an empty
capture, used to normalize times. -/
def firstNoteTime (notes : List NoteEvent) : ℚ :=
  match sortNotes notes with
  | [] => 0
  | e :: _ => e.time

/-- Sort by time and shift all times so the earliest event is at time 0,
exactly as `createTrackData` and `createPlaybackTrackData` preprocess. -/
def normalizeSort (notes : List NoteEvent) : List NoteEvent :=
  (sortNotes notes).map fun e => { e with time := e.time - firstNoteTime notes }

/-- Delta-time in ticks between the running time and a note's time:
`Math.max(0, Math.round((note.time - currentTime) * 160))`. -/
def deltaClamped (cur t : ℚ) : ℤ :=
  max 0 (jsRound ((t - cur) * 160))

/-- Per-note track events of the encoder loop: each note contributes a
(delta-ticks, event-bytes) pair, where the event bytes are status
(0x90 note-on / 0x80 note-off), note, velocity, and the running time is
set to the note's (exact, unrounded) time. -/
def trackEventsGo (cur : ℚ) : List NoteEvent → List (ℤ × List ℕ)
  | [] => []
  | e :: es =>
    (deltaClamped cur e.time, [if e.isNoteOn then 144 else 128, e.note, e.velocity])
      :: trackEventsGo e.time es

/-- Serialization of one (delta, event-bytes) pair. -/
def serEvent (p : ℤ × List ℕ) : List ℕ := jsVlq p.1 ++ p.2

/-- Serialization of a whole event list. -/
def serTrack (evs : List (ℤ × List ℕ)) : List ℕ := (evs.map serEvent).flatten

/-- MidiRecorder.createTrackData: sort, normalize, emit delta/event pairs,
terminate with the end-of-track meta event 0x00 0xFF 0x2F 0x00, and build
the `Uint8Array` (byte truncation mod 256). -/
def createTrackData (notes : List NoteEvent) : List ℕ :=
  (serTrack (trackEventsGo 0 (normalizeSort notes)) ++ [0, 255, 47, 0]).map (· % 256)

/-- Track chunk header plus body wrapped behind the file header chunk. -/
def midiFileBytes (track : List ℕ) : List ℕ :=
  headerBytes ++ [77, 84, 114, 107] ++ int32ToBytes track.length ++ track

/-- MidiRecorder.createMidiData: file header chunk, track chunk header with
exact byte length, track data. -/
def createMidiData (notes : List NoteEvent) : List ℕ :=
  midiFileBytes (createTrackData notes)

/-- Running time after the encoder loop: the last note's time, or the
initial value if there are no notes. -/
def lastTimeFrom (cur : ℚ) : List NoteEvent → ℚ
  | [] => cur
  | e :: es => lastTimeFrom e.time es

/-- Value of `currentTime` after the playback encoder's user-note loop. -/
def lastNormTime (notes : List NoteEvent) : ℚ :=
  lastTimeFrom 0 (normalizeSort notes)

/-- Final delta of `createPlaybackTrackData`:
`Math.round((9.6 - currentTime) * 160)` — not clamped to 0. -/
def playbackRemainingTicks (notes : List NoteEvent) : ℤ :=
  jsRound ((48/5 - lastNormTime notes) * 160)

/-- Event list of `createPlaybackTrackData`: a near-silent sustain note-on
(note 127, velocity 1) at delta 0, the user events, then the sustain
note-off with the calculated remaining delta. -/
def playbackEvents (notes : List NoteEvent) : List (ℤ × List ℕ) :=
  ((0 : ℤ), [144, 127, 1])
    :: trackEventsGo 0 (normalizeSort notes)
    ++ [(playbackRemainingTicks notes, [128, 127, 0])]

/-- MidiRecorder.createPlaybackTrackData: sustain-padded track body. -/
def createPlaybackTrackData (notes : List NoteEvent) : List ℕ :=
  (serTrack (playbackEvents notes) ++ [0, 255, 47, 0]).map (· % 256)

/-- MidiRecorder.createPlaybackMidiData: playback-padded full file. -/
def createPlaybackMidiData (notes : List NoteEvent) : List ℕ :=
  midiFileBytes (createPlaybackTrackData notes)

/-- Absolute tick position of the sustain note-off in the playback-padded
track: the sum of every delta up to and including its own. -/
def sustainOffTick (notes : List NoteEvent) : ℤ :=
  ((playbackEvents notes).map Prod.fst).sum

/-- Recording mode of the MidiRecorder: fixed duration ("time") or rolling
silence timeout ("silence"). -/
inductive RecMode where
  | timed
  | silence
deriving DecidableEq, Repr

/-- Observable state of the MidiRecorder; the two `setTimeout` handles are
embedded as pending-timer flags. -/
structure RecState where
  isRecording : Bool
  recordedNotes : List NoteEvent
  startTime : Option ℚ
  recordingDuration : ℚ
  silenceTimeout : Bool
  mode : RecMode
  wasCanceled : Bool
  internalTimeout : Bool
deriving DecidableEq, Repr

/-- Constructor state of the MidiRecorder. -/
def recInit : RecState :=
  { isRecording := false, recordedNotes := [], startTime := none,
    recordingDuration := 0, silenceTimeout := false, mode := .timed,
    wasCanceled := false, internalTimeout := false }

/-- MidiRecorder.clearAllTimers. -/
def clearAllTimers (s : RecState) : RecState :=
  { s with silenceTimeout := false, internalTimeout := false }

/-- MidiRecorder.clearAllState: discards notes, start time, duration and all
timers (but not the `wasCanceled` or `isRecording` flags). -/
def clearAllState (s : RecState) : RecState :=
  { clearAllTimers s with recordedNotes := [], startTime := none, recordingDuration := 0 }

/-- MidiRecorder.startRecording: clears all previous state, then arms either
the fixed-duration timer or the silence timer. -/
def startRecording (s : RecState) (mode : RecMode) (duration : ℚ) (now : ℚ) : RecState :=
  let s1 := clearAllState s
  let s2 := { s1 with isRecording := true, recordedNotes := [], startTime := some now,
                      mode := mode, recordingDuration := duration * 1000, wasCanceled := false }
  match mode with
  | .timed => { s2 with internalTimeout := true }
  | .silence => { s2 with silenceTimeout := true }

/-- MidiRecorder.stopRecording: no-op when inactive; otherwise clears the
timers and returns the captured events. -/
def stopRecording (s : RecState) : RecState × Option (List NoteEvent) :=
  if s.isRecording = false then (s, none)
  else
    let s1 := clearAllTimers { s with isRecording := false }
    (s1, some s1.recordedNotes)

/-- MidiRecorder.cancelRecording: no-op when inactive (returns without
setting the flag); otherwise sets `wasCanceled`, stops, and discards all
captured state. Returns `true` exactly when a recording was canceled. -/
def cancelRecording (s : RecState) : RecState × Bool :=
  if s.isRecording = false then (s, false)
  else (clearAllState (clearAllTimers { s with wasCanceled := true, isRecording := false }), true)

/-- MidiRecorder.addNote: no-op unless recording; stores the session-relative
time `(timestamp - startTime) / 1000` and, in silence mode, a note-on rearms
the silence timer. -/
def addNote (s : RecState) (note velocity : ℕ) (timestamp : ℚ) (isNoteOn : Bool) : RecState :=
  if s.isRecording = false then s
  else
    let rt := (timestamp - s.startTime.getD 0) / 1000
    let s1 := { s with recordedNotes := s.recordedNotes ++ [⟨note, velocity, rt, isNoteOn⟩] }
    if s1.mode = .silence ∧ isNoteOn then { s1 with silenceTimeout := true } else s1

/-- MidiRecorder.convertToMidiBlob: throws "No notes recorded" on an empty
capture, otherwise yields the export-mode file bytes. -/
def convertToMidiBlob (s : RecState) : Except String (List ℕ) :=
  if s.recordedNotes.length = 0 then .error "No notes recorded"
  else .ok (createMidiData s.recordedNotes)

/-- MidiRecorder.createPlaybackMidiBlob: same guard, playback-padded bytes. -/
def createPlaybackMidiBlob (s : RecState) : Except String (List ℕ) :=
  if s.recordedNotes.length = 0 then .error "No notes recorded"
  else .ok (createPlaybackMidiData s.recordedNotes)

/-- Modelled from the spec: the decoder half of the EventFileCodec is not in
this repository (the player delegates decoding to the external @tonejs/midi
library), so per §4.3 the variable-length delta is decoded by accumulating
7-bit groups until a byte without the continuation bit (0x80). Returns the
decoded value and the remaining bytes, or `none` on a truncated buffer. -/
def parseVLQAux (acc : ℕ) : List ℕ → Option (ℕ × List ℕ)
  | [] => none
  | b :: bs =>
    if b < 128 then some (acc * 128 + b % 128, bs)
    else parseVLQAux (acc * 128 + b % 128) bs

/-- Modelled from the spec: event-walk of the decoder (missing from the
repository, per §4.3 / §6). Reads a delta, accumulates the absolute tick
position, converts ticks back to seconds with the fixed 160 ticks-per-second
constant, handles 0x90/0x80 channel-voice events, stops at the end-of-track
meta event and skips other meta events by their length byte; any malformed or
truncated input is a synchronous error, so decoding never partially succeeds.
The fuel argument only bounds recursion depth. -/
def parseEvents (fuel : ℕ) (body : List ℕ) (tick : ℕ) (acc : List NoteEvent) :
    Except String (List NoteEvent) :=
  if fuel = 0 then .error "MalformedFileError: unterminated track" else
  match parseVLQAux 0 body with
  | none => .error "MalformedFileError: truncated track"
  | some (d, rest) =>
    match rest with
    | 255 :: 47 :: 0 :: _ => .ok acc.reverse
    | 255 :: _ :: len :: rest2 =>
      if len ≤ rest2.length then parseEvents (fuel - 1) (rest2.drop len) (tick + d) acc
      else .error "MalformedFileError: truncated meta event"
    | 144 :: n :: v :: rest2 =>
      parseEvents (fuel - 1) rest2 (tick + d)
        (⟨n, v, ((tick + d : ℕ) : ℚ) / 160, true⟩ :: acc)
    | 128 :: n :: v :: rest2 =>
      parseEvents (fuel - 1) rest2 (tick + d)
        (⟨n, v, ((tick + d : ℕ) : ℚ) / 160, false⟩ :: acc)
    | _ => .error "MalformedFileError: unsupported event"
termination_by fuel
decreasing_by all_goals omega

/-- Modelled from the spec: track-chunk parsing (§6) — 4-byte magic "MTrk"
and a 4-byte big-endian length that must describe exactly the bytes that
follow; a wrong magic or a length not matching the buffer is malformed, and
the parser never reads past the declared chunk length. -/
def parseTrackChunk (tb : List ℕ) : Except String (List NoteEvent) :=
  match tb with
  | 77 :: 84 :: 114 :: 107 :: l1 :: l2 :: l3 :: l4 :: body =>
    if [l1, l2, l3, l4] = int32ToBytes body.length
    then parseEvents (body.length + 1) body 0 []
    else .error "MalformedFileError: bad track length"
  | _ => .error "MalformedFileError: bad track chunk"

/-- Modelled from the spec: whole-file decoding (§4.3/§6) — validate the file
header chunk magic "MThd" and its declared length 6, then parse the track
chunk. An empty or malformed source is a synchronous MalformedFileError. -/
def decodeMidiFile (bytes : List ℕ) : Except String (List NoteEvent) :=
  match bytes with
  | 77 :: 84 :: 104 :: 100 :: 0 :: 0 :: 0 :: 6 :: _ :: _ :: _ :: _ :: _ :: _ :: rest =>
    parseTrackChunk rest
  | _ => .error "MalformedFileError: bad file header"

/-- Playable note as produced by the external @tonejs/midi decoder: start
time, sustain duration, note name (kept as the note number) and normalized
velocity. -/
structure PNote where
  time : ℚ
  duration : ℚ
  name : ℕ
  velocity : ℚ
deriving DecidableEq, Repr

/-- First matching note-off for a note number. -/
def findOff (note : ℕ) (es : List NoteEvent) : Option NoteEvent :=
  es.find? fun e => e.note = note ∧ e.isNoteOn = false

/-- Modelled from the spec: pairing of note-on/note-off events into sustained
notes, as performed inside the external decoder; each note-on is paired with
the next note-off of the same note number (duration 0 if unmatched), and
velocities are normalized to 0..1. -/
def pairNotes : List NoteEvent → List PNote
  | [] => []
  | e :: es =>
    if e.isNoteOn then
      match findOff e.note es with
      | some off => ⟨e.time, off.time - e.time, e.note, (e.velocity : ℚ) / 127⟩ :: pairNotes es
      | none => ⟨e.time, 0, e.note, (e.velocity : ℚ) / 127⟩ :: pairNotes es
    else pairNotes es

/-- Modelled from the spec: full source decoding used by the player
(`Midi.fromUrl`), which raises synchronously on malformed input. -/
def midiToPlayable (bytes : List ℕ) : Except String (List PNote) :=
  (decodeMidiFile bytes).map pairNotes

/-- Event scheduled on the transport: either the dedicated stop event or a
note trigger with its (already clamped) sustain. -/
inductive PEvent where
  | stopAt (t : ℚ)
  | noteAt (t : ℚ) (name : ℕ) (dur : ℚ) (vel : ℚ)
deriving DecidableEq, Repr

/-- Observable state of the PrecisionMIDIPlayer. -/
structure PlayerState where
  isPlaying : Bool
  scheduledEvents : List PEvent
  forcedDuration : ℚ
deriving DecidableEq, Repr

/-- Constructor state of the PrecisionMIDIPlayer: forced duration 9.6 s,
exactly 16 beats at 100 BPM. -/
def pInit : PlayerState :=
  { isPlaying := false, scheduledEvents := [], forcedDuration := 48/5 }

/-- PrecisionMIDIPlayer.stop: when playing, halts the transport, clears every
scheduled handle and the playing flag; otherwise a no-op. -/
def Player.stop (p : PlayerState) : PlayerState :=
  if p.isPlaying then { p with isPlaying := false, scheduledEvents := [] } else p

/-- Effective playback duration: `forcedDuration || this.forcedDuration`,
so the JS-falsy argument values (null and 0) fall back to the default. -/
def effectiveDuration (p : PlayerState) (fd : Option ℚ) : ℚ :=
  match fd with
  | none => p.forcedDuration
  | some d => if d = 0 then p.forcedDuration else d

/-- Scheduled note triggers of `loadAndPlayWithDuration`: a note starting
before the duration is scheduled with sustain
`Math.min(note.duration, duration - note.time)`; a note starting at or after
the duration is dropped. -/
def scheduleNotes (notes : List PNote) (d : ℚ) : List PEvent :=
  notes.filterMap fun n =>
    if n.time < d then some (.noteAt n.time n.name (min n.duration (d - n.time)) n.velocity)
    else none

/-- Post-decode part of PrecisionMIDIPlayer.loadAndPlayWithDuration: clear any
previous schedule via `stop()`, schedule the dedicated stop event at the
effective duration, then the clamped note triggers, and start the transport. -/
def loadAndPlayNotes (p : PlayerState) (notes : List PNote) (fd : Option ℚ) :
    PlayerState × Bool :=
  let d := effectiveDuration p fd
  let p1 := Player.stop p
  ({ p1 with
      scheduledEvents := p1.scheduledEvents ++ PEvent.stopAt d :: scheduleNotes notes d,
      isPlaying := true }, true)

/-- Body of loadAndPlayWithDuration before its catch handler: decoding may
raise, and the error propagates out of the body. -/
def loadAndPlayBody (p : PlayerState) (bytes : List ℕ) (fd : Option ℚ) :
    Except String (PlayerState × Bool) :=
  match midiToPlayable bytes with
  | .error e => .error e
  | .ok notes => .ok (loadAndPlayNotes p notes fd)

/-- PrecisionMIDIPlayer.loadAndPlayWithDuration: the whole body runs inside
`try / catch`; any decoding failure is caught, logged and reported by
returning `false` with the player state untouched. -/
def loadAndPlayWithDuration (p : PlayerState) (bytes : List ℕ) (fd : Option ℚ) :
    PlayerState × Bool :=
  match loadAndPlayBody p bytes fd with
  | .ok r => r
  | .error _ => (p, false)

/-- Observable state of the Metronome: beat counters, flags, the look-ahead
scheduler timer handle (`intervalId`) and the pending count-in-to-recording
handoff `setTimeout` (fired 50 ms after the 4th count-in beat), plus the last
visual indicator content (`none` = cleared). -/
structure MetState where
  isPlaying : Bool
  bpm : ℚ
  beatCount : ℕ
  isCountingIn : Bool
  countInBeat : ℕ
  recordingStarted : Bool
  intervalId : Bool
  nextNoteTime : ℚ
  handoffPending : Bool
  visual : Option (ℕ × Bool)
deriving DecidableEq, Repr

/-- Constructor state of the Metronome. -/
def metInit : MetState :=
  { isPlaying := false, bpm := 100, beatCount := 0, isCountingIn := false,
    countInBeat := 0, recordingStarted := false, intervalId := false,
    nextNoteTime := 0, handoffPending := false, visual := none }

/-- Metronome.nextNote: advance the beat grid by one beat; while counting in,
increment `countInBeat`; on reaching 4, flip `isCountingIn` off, reset
`beatCount` to 0 and arm the (fire-and-forget) recording-start handoff timer;
otherwise increment `beatCount`. -/
def Metronome.nextNote (s : MetState) : MetState :=
  let s0 := { s with nextNoteTime := s.nextNoteTime + 60 / s.bpm }
  if s0.isCountingIn then
    let c := s0.countInBeat + 1
    let s1 := { s0 with countInBeat := c, visual := some (c, true) }
    if 4 ≤ c then
      { s1 with isCountingIn := false, beatCount := 0, recordingStarted := true,
                handoffPending := true }
    else s1
  else
    let b := s0.beatCount + 1
    { s0 with beatCount := b, visual := some (b, false) }

/-- Metronome.start: reset counters and flags, set the tempo, align the beat
grid to the audio clock and start the look-ahead scheduler. -/
def Metronome.start (s : MetState) (bpm : ℚ) (countIn : Bool) (now : ℚ) : MetState :=
  { s with bpm := bpm, beatCount := 0, countInBeat := 0, isCountingIn := countIn,
           recordingStarted := false, isPlaying := true, nextNoteTime := now,
           intervalId := true }

/-- Metronome.stop: when playing, halt scheduling, cancel the scheduler timer
and reset flags and the visual indicator; otherwise a no-op. The pending
handoff timer is not tracked and not cancelled. -/
def Metronome.stop (s : MetState) : MetState :=
  if s.isPlaying then
    { s with isPlaying := false, isCountingIn := false, recordingStarted := false,
             intervalId := false, visual := none }
  else s

/-- Emission of `k` scheduled beats: `scheduleNote` plays each click with the
current `isCountingIn` flag and then calls `nextNote`. Returns the final
state and the ordered count-in flags of the emitted clicks. -/
def Metronome.run (s : MetState) : ℕ → MetState × List Bool
  | 0 => (s, [])
  | k + 1 =>
    let r := Metronome.run (Metronome.nextNote s) k
    (r.1, s.isCountingIn :: r.2)

/-- Number of base-128 digits of the high part of a VLQ value. -/
def vlqDigits (v : ℕ) : ℕ :=
  if v = 0 then 0 else vlqDigits (v / 128) + 1
termination_by v
decreasing_by exact Nat.div_lt_self (Nat.pos_of_ne_zero (by assumption)) (by norm_num)

/-- Reference reconstruction of what the spec-modelled decoder recovers from
an encoded track: each note keeps its fields, but its time becomes the
accumulated rounded tick position divided by the 160 ticks-per-second
constant. -/
def recon (cur : ℚ) (tick : ℕ) : List NoteEvent → List NoteEvent
  | [] => []
  | e :: es =>
    ⟨e.note, e.velocity, ((tick + (deltaClamped cur e.time).toNat : ℕ) : ℚ) / 160, e.isNoteOn⟩
      :: recon e.time (tick + (deltaClamped cur e.time).toNat) es

/-- Four events spaced 0.49 ticks (49/16000 s) apart: every encoded delta
rounds to 0, so the reconstructed times collapse to 0 while the last original
normalized time is 147/16000 s ≈ 1.47 ticks. -/
def exC1 : List NoteEvent :=
  [⟨60, 100, 0, true⟩, ⟨60, 100, 49/16000, true⟩,
   ⟨60, 100, 98/16000, true⟩, ⟨60, 100, 147/16000, false⟩]

/-- Event list decoded back from the export-mode encoding of `exC1`. -/
def decodedC1 : List NoteEvent :=
  ((decodeMidiFile (createMidiData exC1)).toOption).getD []

/-- Two events 10 s apart: the playback-padded encoder's final sustain delta
becomes round((9.6 - 10) * 160) = -64, which is negative and not clamped. -/
def notesC5 : List NoteEvent :=
  [⟨60, 100, 0, true⟩, ⟨60, 100, 10, false⟩]

/-- Two events half a tick (1/320 s) apart: the user delta rounds up to 1 and
the closing sustain delta also rounds up to 1536, so the sustain note-off
lands on absolute tick 1537 instead of 1536. -/
def notesC8 : List NoteEvent :=
  [⟨60, 100, 0, true⟩, ⟨60, 100, 1/320, false⟩]

/-- Concrete playable note starting at 1 s with an 8 s sustain. -/
def noteC2 : PNote := ⟨1, 8, 60, 1⟩

/-- Recorder in an active session holding one captured note. -/
def recActive : RecState :=
  { isRecording := true, recordedNotes := [⟨60, 100, 0, true⟩], startTime := some 0,
    recordingDuration := 10000, silenceTimeout := false, mode := .timed,
    wasCanceled := false, internalTimeout := true }

/-! ### Variable-length quantity lemmas -/

theorem vlqAux_zero (acc : List ℕ) : vlqAux 0 acc = acc := by
  rw [vlqAux]
  exact if_pos rfl

theorem vlqAux_pos (v : ℕ) (acc : List ℕ) (h : v ≠ 0) :
    vlqAux v acc = vlqAux (v / 128) ((v % 128 + 128) :: acc) := by
  rw [vlqAux, if_neg h]

theorem vlqDigits_zero : vlqDigits 0 = 0 := by
  rw [vlqDigits]
  exact if_pos rfl

theorem vlqDigits_pos (v : ℕ) (h : v ≠ 0) : vlqDigits v = vlqDigits (v / 128) + 1 := by
  rw [vlqDigits, if_neg h]

theorem vlqAux_eq_append (v : ℕ) : ∀ acc : List ℕ, vlqAux v acc = vlqAux v [] ++ acc := by
  induction v using Nat.strong_induction_on with
  | _ v ih =>
    intro acc
    by_cases h : v = 0
    · subst h; simp [vlqAux_zero]
    · have hlt : v / 128 < v := Nat.div_lt_self (Nat.pos_of_ne_zero h) (by norm_num)
      rw [vlqAux_pos v acc h, vlqAux_pos v [] h, ih (v / 128) hlt ((v % 128 + 128) :: acc),
        ih (v / 128) hlt ((v % 128 + 128) :: [])]
      simp

theorem parseVLQAux_vlqAux (v : ℕ) : ∀ (A : ℕ) (suffix : List ℕ),
    parseVLQAux A (vlqAux v suffix) = parseVLQAux (A * 128 ^ vlqDigits v + v) suffix := by
  induction v using Nat.strong_induction_on with
  | _ v ih =>
    intro A suffix
    by_cases h : v = 0
    · subst h; simp [vlqAux_zero, vlqDigits_zero]
    · have hlt : v / 128 < v := Nat.div_lt_self (Nat.pos_of_ne_zero h) (by norm_num)
      rw [vlqAux_pos v suffix h, ih (v / 128) hlt]
      rw [parseVLQAux]
      have hb : ¬ (v % 128 + 128 < 128) := by omega
      rw [if_neg hb]
      have hmod : (v % 128 + 128) % 128 = v % 128 := by omega
      rw [hmod]
      congr 1
      rw [vlqDigits_pos v h, pow_succ, ← mul_assoc]
      omega

theorem parseVLQAux_vlq (n : ℕ) (rest : List ℕ) :
    parseVLQAux 0 (variableLengthQuantity n ++ rest) = some (n, rest) := by
  have h1 : variableLengthQuantity n ++ rest = vlqAux (n / 128) (n % 128 :: rest) := by
    rw [variableLengthQuantity, vlqAux_eq_append (n / 128) [n % 128],
      vlqAux_eq_append (n / 128) (n % 128 :: rest)]
    simp
  rw [h1, parseVLQAux_vlqAux]
  rw [parseVLQAux]
  have hb : n % 128 < 128 := Nat.mod_lt _ (by norm_num)
  rw [if_pos hb]
  have h2 : (0 * 128 ^ vlqDigits (n / 128) + n / 128) * 128 + n % 128 % 128 = n := by
    simp only [Nat.zero_mul, Nat.zero_add]
    omega
  rw [h2]

theorem vlqAux_lt256 (v : ℕ) : ∀ acc : List ℕ, (∀ b ∈ acc, b < 256) →
    ∀ b ∈ vlqAux v acc, b < 256 := by
  induction v using Nat.strong_induction_on with
  | _ v ih =>
    intro acc hacc
    by_cases h : v = 0
    · subst h; rw [vlqAux_zero]; exact hacc
    · have hlt : v / 128 < v := Nat.div_lt_self (Nat.pos_of_ne_zero h) (by norm_num)
      rw [vlqAux_pos v acc h]
      refine ih (v / 128) hlt _ ?_
      intro b hb
      rcases List.mem_cons.1 hb with hb | hb
      · omega
      · exact hacc b hb

theorem vlq_lt256 (n : ℕ) : ∀ b ∈ variableLengthQuantity n, b < 256 := by
  refine vlqAux_lt256 _ _ ?_
  intro b hb
  rcases List.mem_cons.1 hb with hb | hb
  · omega
  · simp at hb

theorem jsVlq_lt256 (v : ℤ) : ∀ b ∈ jsVlq v, b < 256 := by
  intro b hb
  by_cases h : 0 ≤ v
  · exact vlq_lt256 _ b (by simpa [jsVlq, h] using hb)
  · simp [jsVlq, h] at hb
    have h1 : 0 ≤ v % 128 := Int.emod_nonneg v (by norm_num)
    have h2 : v % 128 < 128 := Int.emod_lt_of_pos v (by norm_num)
    omega

theorem vlqAux_length (v : ℕ) : ∀ acc : List ℕ, acc.length ≤ (vlqAux v acc).length := by
  induction v using Nat.strong_induction_on with
  | _ v ih =>
    intro acc
    by_cases h : v = 0
    · subst h; rw [vlqAux_zero]
    · have hlt : v / 128 < v := Nat.div_lt_self (Nat.pos_of_ne_zero h) (by norm_num)
      rw [vlqAux_pos v acc h]
      calc acc.length ≤ ((v % 128 + 128) :: acc).length := by simp
        _ ≤ _ := ih (v / 128) hlt _

theorem vlq_ne_nil (n : ℕ) : variableLengthQuantity n ≠ [] := by
  intro h
  have := vlqAux_length (n / 128) [n % 128]
  rw [variableLengthQuantity] at h
  rw [h] at this
  simp at this

theorem jsVlq_of_nonneg (v : ℤ) (h : 0 ≤ v) : jsVlq v = variableLengthQuantity v.toNat := by
  simp [jsVlq, h]

theorem deltaClamped_nonneg (cur t : ℚ) : 0 ≤ deltaClamped cur t := le_max_left _ _

/-! ### Serialization support lemmas -/

theorem serTrack_nil : serTrack [] = [] := rfl

theorem serTrack_cons (p : ℤ × List ℕ) (evs : List (ℤ × List ℕ)) :
    serTrack (p :: evs) = serEvent p ++ serTrack evs := by
  simp [serTrack]

theorem map_mod256 (l : List ℕ) (h : ∀ b ∈ l, b < 256) : l.map (· % 256) = l := by
  induction l with
  | nil => rfl
  | cons a l ih =>
    have ha : a % 256 = a := Nat.mod_eq_of_lt (h a (by simp))
    simp only [List.map_cons, ha, ih fun b hb => h b (List.mem_cons_of_mem a hb)]

theorem trackEventsGo_bytes_lt (ts : List NoteEvent)
    (h : ∀ e ∈ ts, e.note < 256 ∧ e.velocity < 256) :
    ∀ (cur : ℚ) (b : ℕ), b ∈ serTrack (trackEventsGo cur ts) → b < 256 := by
  induction ts with
  | nil => intro cur b hb; rw [trackEventsGo, serTrack_nil] at hb; simp at hb
  | cons e es ih =>
    intro cur b hb
    rw [trackEventsGo, serTrack_cons] at hb
    rcases List.mem_append.1 hb with hb | hb
    · rcases List.mem_append.1 hb with hb | hb
      · exact jsVlq_lt256 _ b hb
      · rcases List.mem_cons.1 hb with hb | hb
        · subst hb
          by_cases hOn : e.isNoteOn <;> simp [hOn]
        · rcases List.mem_cons.1 hb with hb | hb
          · subst hb; exact (h e (by simp)).1
          · rcases List.mem_cons.1 hb with hb | hb
            · subst hb; exact (h e (by simp)).2
            · simp at hb
    · exact ih (fun x hx => h x (List.mem_cons_of_mem e hx)) e.time b hb

/-! ### Decoder simulation: parsing an encoded track recovers `recon` -/

theorem parseEvents_serTrack (ts : List NoteEvent) :
    ∀ (fuel : ℕ) (cur : ℚ) (tick : ℕ) (acc : List NoteEvent), ts.length < fuel →
    parseEvents fuel (serTrack (trackEventsGo cur ts) ++ [0, 255, 47, 0]) tick acc
      = .ok (acc.reverse ++ recon cur tick ts) := by
  induction ts with
  | nil =>
    intro fuel cur tick acc hf
    have h0 : fuel ≠ 0 := by omega
    rw [trackEventsGo, serTrack_nil, List.nil_append, parseEvents, if_neg h0]
    have hp : parseVLQAux 0 [0, 255, 47, 0] = some (0, [255, 47, 0]) := by
      rw [parseVLQAux]
      norm_num
    rw [hp, recon]
    simp
  | cons e es ih =>
    intro fuel cur tick acc hf
    have h0 : fuel ≠ 0 := by omega
    have hd0 : 0 ≤ deltaClamped cur e.time := deltaClamped_nonneg cur e.time
    rw [trackEventsGo, serTrack_cons, List.append_assoc, serEvent,
      jsVlq_of_nonneg _ hd0]
    rw [List.append_assoc]
    rw [parseEvents, if_neg h0, parseVLQAux_vlq]
    have hes : es.length < fuel - 1 := by
      have := hf; simp only [List.length_cons] at this; omega
    by_cases hOn : e.isNoteOn
    · simp only [hOn, if_pos]
      show parseEvents (fuel - 1) (serTrack (trackEventsGo e.time es) ++ [0, 255, 47, 0])
          (tick + (deltaClamped cur e.time).toNat)
          (⟨e.note, e.velocity,
            ((tick + (deltaClamped cur e.time).toNat : ℕ) : ℚ) / 160, true⟩ :: acc)
        = .ok (acc.reverse ++ recon cur tick (e :: es))
      rw [ih (fuel - 1) e.time (tick + (deltaClamped cur e.time).toNat) _ hes, recon]
      simp [hOn]
    · simp only [hOn, if_neg, Bool.false_eq_true, not_false_iff]
      show parseEvents (fuel - 1) (serTrack (trackEventsGo e.time es) ++ [0, 255, 47, 0])
          (tick + (deltaClamped cur e.time).toNat)
          (⟨e.note, e.velocity,
            ((tick + (deltaClamped cur e.time).toNat : ℕ) : ℚ) / 160, false⟩ :: acc)
        = .ok (acc.reverse ++ recon cur tick (e :: es))
      rw [ih (fuel - 1) e.time (tick + (deltaClamped cur e.time).toNat) _ hes, recon]
      have hOn' : e.isNoteOn = false := by simpa using hOn
      simp [hOn']

theorem le_serTrack_length (ts : List NoteEvent) :
    ∀ cur : ℚ, ts.length ≤ (serTrack (trackEventsGo cur ts)).length := by
  induction ts with
  | nil => intro cur; simp [trackEventsGo, serTrack_nil]
  | cons e es ih =>
    intro cur
    rw [trackEventsGo, serTrack_cons]
    have h1 := ih e.time
    simp only [serEvent, List.length_append, List.length_cons]
    omega

theorem mem_normalizeSort_note (notes : List NoteEvent) (e : NoteEvent)
    (he : e ∈ normalizeSort notes) :
    ∃ e0 ∈ notes, e.note = e0.note ∧ e.velocity = e0.velocity ∧ e.isNoteOn = e0.isNoteOn := by
  rw [normalizeSort] at he
  rcases List.mem_map.1 he with ⟨e0, he0, rfl⟩
  refine ⟨e0, ?_, rfl, rfl, rfl⟩
  exact ((List.perm_insertionSort timeLE notes).mem_iff).1 he0

theorem decode_createMidiData (notes : List NoteEvent)
    (hb : ∀ e ∈ notes, e.note ≤ 127 ∧ e.velocity ≤ 127) :
    decodeMidiFile (createMidiData notes) = .ok (recon 0 0 (normalizeSort notes)) := by
  have hb' : ∀ e ∈ normalizeSort notes, e.note < 256 ∧ e.velocity < 256 := by
    intro e he
    rcases mem_normalizeSort_note notes e he with ⟨e0, he0, h1, h2, _⟩
    have := hb e0 he0
    omega
  have htrack : createTrackData notes
      = serTrack (trackEventsGo 0 (normalizeSort notes)) ++ [0, 255, 47, 0] := by
    rw [createTrackData]
    apply map_mod256
    intro b hbm
    rcases List.mem_append.1 hbm with h | h
    · exact trackEventsGo_bytes_lt _ hb' 0 b h
    · simp at h
      omega
  rw [createMidiData, midiFileBytes, headerBytes, int32ToBytes]
  simp only [List.cons_append, List.nil_append]
  rw [decodeMidiFile, parseTrackChunk, int32ToBytes, if_pos rfl]
  have hlen : (normalizeSort notes).length < (createTrackData notes).length + 1 := by
    have h1 := le_serTrack_length (normalizeSort notes) 0
    rw [htrack]
    simp only [List.length_append, List.length_cons, List.length_nil]
    omega
  rw [htrack] at hlen ⊢
  rw [parseEvents_serTrack (normalizeSort notes) _ 0 0 [] (by simpa using hlen)]
  simp

/-! ### Properties of the reconstruction -/

theorem recon_length (ts : List NoteEvent) :
    ∀ (cur : ℚ) (tick : ℕ), (recon cur tick ts).length = ts.length := by
  induction ts with
  | nil => intro cur tick; rw [recon]
  | cons e es ih =>
    intro cur tick
    rw [recon]
    simp only [List.length_cons, ih]

theorem recon_getD_fields (ts : List NoteEvent) :
    ∀ (cur : ℚ) (tick : ℕ) (i : ℕ),
    ((recon cur tick ts).getD i noteD).note = (ts.getD i noteD).note ∧
    ((recon cur tick ts).getD i noteD).velocity = (ts.getD i noteD).velocity ∧
    ((recon cur tick ts).getD i noteD).isNoteOn = (ts.getD i noteD).isNoteOn := by
  induction ts with
  | nil => intro cur tick i; rw [recon]; exact ⟨rfl, rfl, rfl⟩
  | cons e es ih =>
    intro cur tick i
    rw [recon]
    cases i with
    | zero => simp
    | succ i => simpa only [List.getD_cons_succ] using ih e.time _ i

theorem normalizeSort_sorted (notes : List NoteEvent) :
    (normalizeSort notes).Sorted timeLE := by
  have hs : (sortNotes notes).Sorted timeLE := List.sorted_insertionSort timeLE notes
  rw [normalizeSort]
  refine List.Pairwise.map _ ?_ hs
  intro a b hab
  simpa [timeLE] using sub_le_sub_right hab (firstNoteTime notes)

theorem recon_gap (ts : List NoteEvent) :
    ∀ (cur : ℚ) (tick : ℕ) (i : ℕ), ts.Chain' timeLE → i + 1 < ts.length →
    |(((recon cur tick ts).getD (i + 1) noteD).time - ((recon cur tick ts).getD i noteD).time)
      - ((ts.getD (i + 1) noteD).time - (ts.getD i noteD).time)| ≤ 1/320 := by
  induction ts with
  | nil => intro cur tick i hc hlen; simp at hlen
  | cons e es ih =>
    intro cur tick i hc hlen
    cases i with
    | zero =>
      cases es with
      | nil => simp at hlen
      | cons e2 es2 =>
        rw [recon, recon]
        simp only [List.getD_cons_zero, List.getD_cons_succ]
        have hle : e.time ≤ e2.time := (List.chain'_cons.1 hc).1
        have hx : (0 : ℚ) ≤ (e2.time - e.time) * 160 :=
          mul_nonneg (sub_nonneg.2 hle) (by norm_num)
        have hr0 : 0 ≤ jsRound ((e2.time - e.time) * 160) := by
          rw [jsRound]
          exact Int.floor_nonneg.2 (by linarith)
        have hmax : deltaClamped e.time e2.time = jsRound ((e2.time - e.time) * 160) :=
          max_eq_right hr0
        have hfl : ((jsRound ((e2.time - e.time) * 160) : ℤ) : ℚ)
            ≤ (e2.time - e.time) * 160 + 1/2 := by
          rw [jsRound]
          exact Int.floor_le _
        have hfu : (e2.time - e.time) * 160 + 1/2
            < ((jsRound ((e2.time - e.time) * 160) : ℤ) : ℚ) + 1 := by
          rw [jsRound]
          exact Int.lt_floor_add_one _
        rw [hmax]
        have hq : (((jsRound ((e2.time - e.time) * 160)).toNat : ℕ) : ℚ)
            = ((jsRound ((e2.time - e.time) * 160) : ℤ) : ℚ) := by
          exact_mod_cast congrArg (Int.cast : ℤ → ℚ) (Int.toNat_of_nonneg hr0)
        push_cast
        rw [hq, abs_le]
        constructor <;> linarith
    | succ i =>
      rw [recon]
      simp only [List.getD_cons_succ]
      refine ih e.time _ i (List.Chain'.tail hc) ?_
      simpa using hlen

theorem sortNotes_ne_nil (notes : List NoteEvent) (h : notes ≠ []) : sortNotes notes ≠ [] := by
  intro hnil
  have hl : (sortNotes notes).length = notes.length := List.length_insertionSort timeLE notes
  rw [hnil] at hl
  exact h (List.eq_nil_of_length_eq_zero hl.symm)

theorem normalizeSort_head_time (notes : List NoteEvent) (h : notes ≠ []) :
    ((normalizeSort notes).getD 0 noteD).time = 0 := by
  cases hsn : sortNotes notes with
  | nil => exact absurd hsn (sortNotes_ne_nil notes h)
  | cons e0 rest =>
    rw [normalizeSort, firstNoteTime, hsn]
    simp

theorem normalizeSort_length (notes : List NoteEvent) :
    (normalizeSort notes).length = notes.length := by
  rw [normalizeSort]
  simp [sortNotes, List.length_insertionSort]

theorem recon_head_time (notes : List NoteEvent) (h : notes ≠ []) :
    ((recon 0 0 (normalizeSort notes)).getD 0 noteD).time = 0 := by
  cases hn : normalizeSort notes with
  | nil =>
    have := normalizeSort_length notes
    rw [hn] at this
    exact absurd (List.eq_nil_of_length_eq_zero this.symm) h
  | cons e0 rest =>
    have h0 : e0.time = 0 := by
      have := normalizeSort_head_time notes h
      rw [hn] at this
      simpa using this
    rw [recon]
    simp only [List.getD_cons_zero]
    have hd : deltaClamped 0 e0.time = 0 := by
      rw [h0, deltaClamped, jsRound]
      norm_num
    rw [hd]
    norm_num

/-! ### C1: round-trip of the export-mode encoder -/

/-- C1 (amended): for every non-empty sequence of NoteEvents with valid note
numbers and velocities (0..127) and time ≥ 0, decoding the file produced by
the export-mode encoder succeeds and yields exactly one event per input
event, with the same note numbers, velocities and on/off flags in the order
of the stable time-sort; the first reconstructed time and the first
normalized original time are both 0, and every reconstructed inter-event gap
matches the corresponding normalized original gap within half a tick
(1/320 s). (The per-event absolute time error is only bounded by the sum of
the per-gap errors, which can exceed one tick — see the counterexample.) -/
theorem midi_roundtrip_amended (notes : List NoteEvent) (hne : notes ≠ [])
    (hb : ∀ e ∈ notes, e.note ≤ 127 ∧ e.velocity ≤ 127 ∧ 0 ≤ e.time) :
    decodeMidiFile (createMidiData notes) = .ok (recon 0 0 (normalizeSort notes)) ∧
    (recon 0 0 (normalizeSort notes)).length = notes.length ∧
    (∀ i : ℕ,
      ((recon 0 0 (normalizeSort notes)).getD i noteD).note
        = ((normalizeSort notes).getD i noteD).note ∧
      ((recon 0 0 (normalizeSort notes)).getD i noteD).velocity
        = ((normalizeSort notes).getD i noteD).velocity ∧
      ((recon 0 0 (normalizeSort notes)).getD i noteD).isNoteOn
        = ((normalizeSort notes).getD i noteD).isNoteOn) ∧
    ((recon 0 0 (normalizeSort notes)).getD 0 noteD).time = 0 ∧
    ((normalizeSort notes).getD 0 noteD).time = 0 ∧
    (∀ i : ℕ, i + 1 < notes.length →
      |(((recon 0 0 (normalizeSort notes)).getD (i + 1) noteD).time
          - ((recon 0 0 (normalizeSort notes)).getD i noteD).time)
        - (((normalizeSort notes).getD (i + 1) noteD).time
          - ((normalizeSort notes).getD i noteD).time)| ≤ 1/320) := by
  refine ⟨decode_createMidiData notes (fun e he => ⟨(hb e he).1, (hb e he).2.1⟩),
    by rw [recon_length, normalizeSort_length],
    fun i => recon_getD_fields _ 0 0 i,
    recon_head_time notes hne,
    normalizeSort_head_time notes hne,
    fun i hi => recon_gap _ 0 0 i (normalizeSort_sorted notes).chain' ?_⟩
  rw [normalizeSort_length]
  exact hi

/-- C1 (witness): the amended round-trip instantiated at the spec's concrete
scenario, a note-on at 0.1 s and a note-off at 0.5 s. -/
theorem midi_roundtrip_amended_witness :
    decodeMidiFile (createMidiData [⟨60, 100, 1/10, true⟩, ⟨60, 100, 1/2, false⟩])
      = .ok (recon 0 0 (normalizeSort [⟨60, 100, 1/10, true⟩, ⟨60, 100, 1/2, false⟩])) ∧
    (recon 0 0 (normalizeSort [⟨60, 100, 1/10, true⟩, ⟨60, 100, 1/2, false⟩])).length = 2 :=
  ⟨(midi_roundtrip_amended _ (by simp) (by norm_num)).1,
   (midi_roundtrip_amended _ (by simp) (by norm_num)).2.1⟩

set_option maxRecDepth 8000 in
/-- C1 (counterexample): with four events spaced 49/16000 s (0.49 ticks)
apart, every encoded delta rounds to 0, so the fourth decoded event's time is
0 while its normalized original time is 147/16000 s — an error of about 1.47
ticks, strictly larger than the one tick (1/160 s) the claim allows. -/
theorem midi_roundtrip_time_counterexample :
    decodedC1.length = 4 ∧
    ((normalizeSort exC1).getD 3 noteD).time = 147/16000 ∧
    (decodedC1.getD 3 noteD).time = 0 ∧
    ¬ (|(decodedC1.getD 3 noteD).time - ((normalizeSort exC1).getD 3 noteD).time| ≤ 1/160) := by
  have hdec : decodeMidiFile (createMidiData exC1)
      = .ok [⟨60, 100, 0, true⟩, ⟨60, 100, 0, true⟩, ⟨60, 100, 0, true⟩, ⟨60, 100, 0, false⟩] := by
    norm_num [exC1, createMidiData, midiFileBytes, headerBytes, createTrackData, trackEventsGo,
      normalizeSort, sortNotes, firstNoteTime, deltaClamped, jsRound,
      List.insertionSort, List.orderedInsert, timeLE]
    simp [serTrack, serEvent, jsVlq, variableLengthQuantity, vlqAux, int32ToBytes,
      decodeMidiFile, parseTrackChunk, parseEvents, parseVLQAux]
  have hnorm : ((normalizeSort exC1).getD 3 noteD).time = 147/16000 := by
    norm_num [exC1, normalizeSort, sortNotes, firstNoteTime,
      List.insertionSort, List.orderedInsert, timeLE, noteD]
  have hd : decodedC1
      = [⟨60, 100, 0, true⟩, ⟨60, 100, 0, true⟩, ⟨60, 100, 0, true⟩, ⟨60, 100, 0, false⟩] := by
    rw [decodedC1, hdec]
    rfl
  refine ⟨by rw [hd]; rfl, hnorm, by rw [hd]; rfl, ?_⟩
  rw [hd, hnorm]
  simp only [List.getD_cons_succ, List.getD_cons_zero]
  rw [zero_sub, abs_neg, abs_of_pos (show (0 : ℚ) < 147/16000 by norm_num)]
  norm_num

/-! ### C2: forced-duration playback -/

theorem scheduleNotes_length (notes : List PNote) (d : ℚ) :
    (scheduleNotes notes d).length = (notes.filter fun n => n.time < d).length := by
  induction notes with
  | nil => rfl
  | cons n ns ih =>
    by_cases h : n.time < d <;>
      simp [scheduleNotes, List.filterMap_cons, List.filter_cons, h, ← ih]

/-- C2 (amended): the playback scheduler works with the effective duration
`forcedDuration || 9.6` (a JS-falsy `forcedDuration`, i.e. null or 0, falls
back to the player's 9.6 s default). With respect to that effective duration
D: the schedule consists of any stale events kept by `stop()`, the dedicated
stop event at exactly D, and the note triggers; every scheduled trigger comes
from a decoded note with start < D and satisfies start + clamped sustain ≤ D;
exactly the notes with start < D are scheduled (those at or after D are
silently dropped); and the transport is started. -/
theorem forced_duration_amended (p : PlayerState) (notes : List PNote) (fd : Option ℚ) :
    ((loadAndPlayNotes p notes fd).1.scheduledEvents
      = (Player.stop p).scheduledEvents
        ++ PEvent.stopAt (effectiveDuration p fd)
          :: scheduleNotes notes (effectiveDuration p fd)) ∧
    (∀ e ∈ scheduleNotes notes (effectiveDuration p fd),
      ∃ n ∈ notes, n.time < effectiveDuration p fd ∧
        e = PEvent.noteAt n.time n.name
              (min n.duration (effectiveDuration p fd - n.time)) n.velocity ∧
        n.time + min n.duration (effectiveDuration p fd - n.time)
          ≤ effectiveDuration p fd) ∧
    ((scheduleNotes notes (effectiveDuration p fd)).length
      = (notes.filter fun n => n.time < effectiveDuration p fd).length) ∧
    (loadAndPlayNotes p notes fd).1.isPlaying = true := by
  refine ⟨by simp [loadAndPlayNotes], ?_, scheduleNotes_length notes _, by simp [loadAndPlayNotes]⟩
  intro e he
  rcases List.mem_filterMap.1 he with ⟨n, hn, hf⟩
  by_cases h : n.time < effectiveDuration p fd
  · rw [if_pos h] at hf
    refine ⟨n, hn, h, (Option.some_inj.mp hf).symm, ?_⟩
    have := min_le_right n.duration (effectiveDuration p fd - n.time)
    linarith
  · rw [if_neg h] at hf
    exact absurd hf (by simp)

/-- C2 (witness): with an explicit 5 s forced duration and one decoded note
at 1 s with an 8 s sustain, the schedule is the stop event at 5 s and the
note clamped to a 4 s sustain. -/
theorem forced_duration_amended_witness :
    (loadAndPlayNotes pInit [noteC2] (some 5)).1.scheduledEvents
      = [PEvent.stopAt 5, PEvent.noteAt 1 60 4 1] := by
  rw [(forced_duration_amended pInit [noteC2] (some 5)).1]
  norm_num [Player.stop, pInit, effectiveDuration, scheduleNotes, noteC2, min_def,
    List.filterMap_cons, List.filterMap_nil]

/-- C2 (counterexample): `forcedDuration = 0` is falsy, so the code replaces
it with the default 9.6 s: the note at 1 s with an 8 s sustain is still
scheduled (not dropped although it starts at or after 0) and its
start + sustain = 9 exceeds the requested forcedDuration 0, and the stop
event is scheduled at 9.6 s, not at 0. -/
theorem forced_duration_zero_counterexample :
    (loadAndPlayNotes pInit [noteC2] (some 0)).1.scheduledEvents
      = [PEvent.stopAt (48/5), PEvent.noteAt 1 60 8 1] ∧
    ¬ ((1 : ℚ) + 8 ≤ 0) := by
  constructor
  · norm_num [loadAndPlayNotes, Player.stop, pInit, effectiveDuration, scheduleNotes,
      noteC2, min_def, List.filterMap_cons, List.filterMap_nil]
  · norm_num

/-! ### C3: the 4-beat count-in -/

/-- C3 (amended): for every `start(bpm, countIn = true)` call, the first four
emitted beats are all count-in clicks; at the moment the 4th count-in beat is
emitted the handoff timer toward `startMIDIRecording` is armed,
`recordingStarted` is set, `beatCount` is 0 and `isCountingIn` has flipped to
false; and after fewer than 4 beats no handoff has been armed by this session
and `isCountingIn` is still true. Within the beat-emission dynamics
(`nextNote`), reaching `countInBeat = 4` is the sole trigger that flips
`isCountingIn` to false — but `stop()` also resets `isCountingIn`
unconditionally, which is what the counterexample exhibits. -/
theorem count_in_amended (s0 : MetState) (bpm now : ℚ) :
    (Metronome.run (Metronome.start s0 bpm true now) 4).2 = [true, true, true, true] ∧
    (Metronome.run (Metronome.start s0 bpm true now) 4).1.handoffPending = true ∧
    (Metronome.run (Metronome.start s0 bpm true now) 4).1.recordingStarted = true ∧
    (Metronome.run (Metronome.start s0 bpm true now) 4).1.beatCount = 0 ∧
    (Metronome.run (Metronome.start s0 bpm true now) 4).1.isCountingIn = false ∧
    (∀ k, k < 4 →
      (Metronome.run (Metronome.start s0 bpm true now) k).1.handoffPending = s0.handoffPending ∧
      (Metronome.run (Metronome.start s0 bpm true now) k).1.recordingStarted = false ∧
      (Metronome.run (Metronome.start s0 bpm true now) k).1.isCountingIn = true) := by
  refine ⟨?_, ?_, ?_, ?_, ?_, ?_⟩
  · simp [Metronome.run, Metronome.nextNote, Metronome.start]
  · simp [Metronome.run, Metronome.nextNote, Metronome.start]
  · simp [Metronome.run, Metronome.nextNote, Metronome.start]
  · simp [Metronome.run, Metronome.nextNote, Metronome.start]
  · simp [Metronome.run, Metronome.nextNote, Metronome.start]
  · intro k hk
    interval_cases k <;>
      refine ⟨?_, ?_, ?_⟩ <;> simp [Metronome.run, Metronome.nextNote, Metronome.start]

/-- C3 (witness): the amended count-in property instantiated at the fresh
metronome, 100 BPM, audio clock 0. -/
theorem count_in_amended_witness :
    (Metronome.run (Metronome.start metInit 100 true 0) 4).2 = [true, true, true, true] ∧
    (Metronome.run (Metronome.start metInit 100 true 0) 2).1.recordingStarted = false ∧
    (Metronome.run (Metronome.start metInit 100 true 0) 2).1.isCountingIn = true :=
  ⟨(count_in_amended metInit 100 0).1,
   ((count_in_amended metInit 100 0).2.2.2.2.2 2 (by norm_num)).2.1,
   ((count_in_amended metInit 100 0).2.2.2.2.2 2 (by norm_num)).2.2⟩

/-- C3 (counterexample): after one count-in beat (`countInBeat = 1`, no 4th
beat emitted, recording never signalled), calling `stop()` flips
`isCountingIn` to false — so emitting the 4th count-in beat is not the sole
trigger that flips `isCountingIn` to false. -/
theorem count_in_stop_counterexample :
    (Metronome.run (Metronome.start metInit 100 true 0) 1).1.isCountingIn = true ∧
    (Metronome.run (Metronome.start metInit 100 true 0) 1).1.countInBeat = 1 ∧
    (Metronome.run (Metronome.start metInit 100 true 0) 1).1.recordingStarted = false ∧
    (Metronome.stop (Metronome.run (Metronome.start metInit 100 true 0) 1).1).isCountingIn
      = false ∧
    (Metronome.stop (Metronome.run (Metronome.start metInit 100 true 0) 1).1).recordingStarted
      = false := by
  refine ⟨?_, ?_, ?_, ?_, ?_⟩ <;>
    simp [Metronome.run, Metronome.nextNote, Metronome.start, Metronome.stop, metInit]

/-! ### C4: idempotent stop -/

/-- C4 (amended): for each component, calling stop twice produces exactly the
same state as calling it once; after one stop the recorder holds no pending
silence or fixed-duration timer, the player holds no scheduled handle, and
the metronome's look-ahead scheduler timer is cancelled (each under the
reachable-state assumption that an inactive component has no pending
timers). The metronome's count-in handoff timer is NOT covered: `stop()`
does not cancel it, which is what the counterexample exhibits. -/
theorem stop_idempotent_amended (m : MetState) (r : RecState) (p : PlayerState)
    (hr : r.isRecording = true ∨ (r.silenceTimeout = false ∧ r.internalTimeout = false))
    (hp : p.isPlaying = true ∨ p.scheduledEvents = [])
    (hm : m.isPlaying = true ∨ m.intervalId = false) :
    Metronome.stop (Metronome.stop m) = Metronome.stop m ∧
    (stopRecording (stopRecording r).1).1 = (stopRecording r).1 ∧
    Player.stop (Player.stop p) = Player.stop p ∧
    (stopRecording r).1.silenceTimeout = false ∧
    (stopRecording r).1.internalTimeout = false ∧
    (Player.stop p).scheduledEvents = [] ∧
    (Metronome.stop m).intervalId = false := by
  refine ⟨?_, ?_, ?_, ?_, ?_, ?_, ?_⟩
  · by_cases h : m.isPlaying <;> simp [Metronome.stop, h]
  · by_cases h : r.isRecording <;> simp [stopRecording, clearAllTimers, h]
  · by_cases h : p.isPlaying <;> simp [Player.stop, h]
  · by_cases h : r.isRecording
    · simp [stopRecording, clearAllTimers, h]
    · rcases hr with hr | hr
      · exact absurd hr (by simpa using h)
      · simp [stopRecording, clearAllTimers, h, hr.1]
  · by_cases h : r.isRecording
    · simp [stopRecording, clearAllTimers, h]
    · rcases hr with hr | hr
      · exact absurd hr (by simpa using h)
      · simp [stopRecording, clearAllTimers, h, hr.2]
  · by_cases h : p.isPlaying
    · simp [Player.stop, h]
    · rcases hp with hp | hp
      · exact absurd hp (by simpa using h)
      · simp [Player.stop, h, hp]
  · by_cases h : m.isPlaying
    · simp [Metronome.stop, h]
    · rcases hm with hm | hm
      · exact absurd hm (by simpa using h)
      · simp [Metronome.stop, h, hm]

/-- C4 (witness): the amended idempotence at the constructor states of the
three components. -/
theorem stop_idempotent_amended_witness :
    Metronome.stop (Metronome.stop metInit) = Metronome.stop metInit ∧
    (stopRecording (stopRecording recInit).1).1 = (stopRecording recInit).1 ∧
    Player.stop (Player.stop pInit) = Player.stop pInit ∧
    (Player.stop pInit).scheduledEvents = [] :=
  ⟨(stop_idempotent_amended metInit recInit pInit (Or.inr ⟨rfl, rfl⟩) (Or.inr rfl)
      (Or.inr rfl)).1,
   (stop_idempotent_amended metInit recInit pInit (Or.inr ⟨rfl, rfl⟩) (Or.inr rfl)
      (Or.inr rfl)).2.1,
   (stop_idempotent_amended metInit recInit pInit (Or.inr ⟨rfl, rfl⟩) (Or.inr rfl)
      (Or.inr rfl)).2.2.1,
   (stop_idempotent_amended metInit recInit pInit (Or.inr ⟨rfl, rfl⟩) (Or.inr rfl)
      (Or.inr rfl)).2.2.2.2.2.1⟩

/-- C4 (counterexample): right after the 4th count-in beat the handoff timer
toward `startMIDIRecording` is pending; calling `stop()` twice leaves it
pending, so a timer callback belonging to the metronome still fires after
the second `stop()` — the claim's "no timer fires after the second call"
fails for the BeatClock. -/
theorem stop_handoff_timer_counterexample :
    (Metronome.run (Metronome.start metInit 100 true 0) 4).1.handoffPending = true ∧
    (Metronome.run (Metronome.start metInit 100 true 0) 4).1.isPlaying = true ∧
    (Metronome.stop (Metronome.stop
        (Metronome.run (Metronome.start metInit 100 true 0) 4).1)).handoffPending = true := by
  refine ⟨?_, ?_, ?_⟩ <;>
    simp [Metronome.run, Metronome.nextNote, Metronome.start, Metronome.stop, metInit]

/-! ### C5: delta-time non-negativity -/

theorem trackEventsGo_delta_nonneg (ts : List NoteEvent) :
    ∀ (cur : ℚ) (pr : ℤ × List ℕ), pr ∈ trackEventsGo cur ts → 0 ≤ pr.1 := by
  induction ts with
  | nil => intro cur pr hpr; rw [trackEventsGo] at hpr; simp at hpr
  | cons e es ih =>
    intro cur pr hpr
    rw [trackEventsGo] at hpr
    rcases List.mem_cons.1 hpr with hpr | hpr
    · rw [hpr]
      exact deltaClamped_nonneg cur e.time
    · exact ih e.time pr hpr

/-- C5 (amended): every delta the export-mode encoder emits is clamped
non-negative, and so is every user-note delta of the playback-padded
encoder; but the playback encoder's closing sustain-note-off delta is NOT
clamped — it is non-negative only under the hypothesis that the last
normalized event time does not exceed the 9.6 s target (otherwise the
negative remainder is handed to the VLQ writer unclamped, see the
counterexample). -/
theorem delta_nonneg_amended (notes : List NoteEvent) (h : lastNormTime notes ≤ 48/5) :
    (∀ pr ∈ trackEventsGo 0 (normalizeSort notes), 0 ≤ pr.1) ∧
    0 ≤ playbackRemainingTicks notes ∧
    (∀ pr ∈ playbackEvents notes, 0 ≤ pr.1) := by
  have hrem : 0 ≤ playbackRemainingTicks notes := by
    rw [playbackRemainingTicks, jsRound]
    apply Int.floor_nonneg.2
    have h0 : (0 : ℚ) ≤ (48/5 - lastNormTime notes) * 160 :=
      mul_nonneg (by linarith) (by norm_num)
    linarith
  refine ⟨fun pr hpr => trackEventsGo_delta_nonneg _ 0 pr hpr, hrem, ?_⟩
  intro pr hpr
  rw [playbackEvents] at hpr
  rcases List.mem_cons.1 hpr with hpr | hpr
  · rw [hpr]
  · rcases List.mem_append.1 hpr with hpr | hpr
    · exact trackEventsGo_delta_nonneg _ 0 pr hpr
    · have : pr = (playbackRemainingTicks notes, [128, 127, 0]) := by simpa using hpr
      rw [this]
      exact hrem

/-- C5 (witness): two events one second apart keep the closing sustain delta
non-negative. -/
theorem delta_nonneg_amended_witness :
    0 ≤ playbackRemainingTicks [⟨60, 100, 0, true⟩, ⟨60, 100, 1, false⟩] :=
  (delta_nonneg_amended _ (by norm_num [lastNormTime, lastTimeFrom, normalizeSort, sortNotes,
    firstNoteTime, List.insertionSort, List.orderedInsert, timeLE])).2.1

/-- C5 (counterexample): with a note-off 10 s after the note-on, the playback
encoder's closing sustain delta is round((9.6 - 10) * 160) = -64 — a negative
delta emitted into the track chunk, not clamped to 0: the VLQ writer encodes
it as the single byte 0x40 (64 ticks), so the negative gap is mis-encoded
rather than clamped. -/
theorem playback_delta_negative_counterexample :
    playbackRemainingTicks notesC5 = -64 ∧
    (playbackEvents notesC5).getLast? = some (playbackRemainingTicks notesC5, [128, 127, 0]) ∧
    jsVlq (playbackRemainingTicks notesC5) = [64] ∧
    jsVlq 0 = [0] := by
  have h1 : playbackRemainingTicks notesC5 = -64 := by
    norm_num [playbackRemainingTicks, lastNormTime, lastTimeFrom, normalizeSort, sortNotes,
      firstNoteTime, List.insertionSort, List.orderedInsert, timeLE, notesC5, jsRound]
  refine ⟨h1, ?_, ?_, ?_⟩
  · rw [playbackEvents, List.getLast?_concat]
  · rw [h1]
    decide
  · rw [jsVlq_of_nonneg 0 le_rfl, variableLengthQuantity]
    norm_num [vlqAux_zero]

/-! ### C8: playback-padded encoding -/

theorem jsRound_intCast (k : ℤ) : jsRound ((k : ℚ)) = k := by
  rw [jsRound, add_comm, Int.floor_add_int]
  norm_num

theorem lastTimeFrom_mem (ts : List NoteEvent) :
    ∀ cur : ℚ, ts ≠ [] → ∃ e ∈ ts, lastTimeFrom cur ts = e.time := by
  induction ts with
  | nil => intro cur h; exact absurd rfl h
  | cons e es ih =>
    intro cur _
    by_cases hes : es = []
    · subst hes
      exact ⟨e, by simp, by rw [lastTimeFrom, lastTimeFrom]⟩
    · rcases ih e.time hes with ⟨f, hf, hlf⟩
      exact ⟨f, List.mem_cons_of_mem e hf, by rw [lastTimeFrom]; exact hlf⟩

theorem trackSum (ts : List NoteEvent) :
    ∀ cur : ℚ, List.Chain' (fun a b => a ≤ b) (cur :: ts.map fun e => e.time) →
    (∀ t ∈ (cur :: ts.map fun e => e.time), ∃ k : ℤ, t * 160 = (k : ℚ)) →
    ((((trackEventsGo cur ts).map Prod.fst).sum : ℤ) : ℚ)
      = (lastTimeFrom cur ts - cur) * 160 := by
  induction ts with
  | nil => intro cur hc hint; simp [trackEventsGo, lastTimeFrom]
  | cons e es ih =>
    intro cur hc hint
    rcases hint cur (by simp) with ⟨k0, hk0⟩
    rcases hint e.time (by simp) with ⟨k1, hk1⟩
    have hc' : List.Chain' (fun a b => a ≤ b) (cur :: e.time :: es.map fun e => e.time) := by
      simpa using hc
    have hle : cur ≤ e.time := (List.chain'_cons.1 hc').1
    have hgap : (e.time - cur) * 160 = ((k1 - k0 : ℤ) : ℚ) := by
      push_cast
      linarith
    have hknn : (0 : ℤ) ≤ k1 - k0 := by
      have h0 : (0 : ℚ) ≤ (e.time - cur) * 160 := mul_nonneg (by linarith) (by norm_num)
      rw [hgap] at h0
      exact_mod_cast h0
    have hδ : deltaClamped cur e.time = k1 - k0 := by
      rw [deltaClamped, hgap, jsRound_intCast, max_eq_right hknn]
    have ihe := ih e.time (hc'.tail) fun t ht => hint t (by
      rcases List.mem_cons.1 ht with ht | ht
      · subst ht; simp
      · simp [ht])
    rw [trackEventsGo, lastTimeFrom]
    simp only [List.map_cons, List.sum_cons]
    push_cast
    push_cast at ihe
    rw [hδ]
    push_cast
    linarith

theorem firstNoteTime_mem (notes : List NoteEvent) (h : notes ≠ []) :
    ∃ e0 ∈ notes, firstNoteTime notes = e0.time := by
  cases hsn : sortNotes notes with
  | nil => exact absurd hsn (sortNotes_ne_nil notes h)
  | cons e0 rest =>
    refine ⟨e0, ?_, by rw [firstNoteTime, hsn]⟩
    have : e0 ∈ sortNotes notes := by rw [hsn]; simp
    exact ((List.perm_insertionSort timeLE notes).mem_iff).1 this

theorem mem_normalizeSort_time (notes : List NoteEvent) (e : NoteEvent)
    (he : e ∈ normalizeSort notes) :
    ∃ e0 ∈ notes, e.time = e0.time - firstNoteTime notes := by
  rw [normalizeSort] at he
  rcases List.mem_map.1 he with ⟨e0, he0, rfl⟩
  exact ⟨e0, ((List.perm_insertionSort timeLE notes).mem_iff).1 he0, rfl⟩

theorem normalizeSort_ne_nil (notes : List NoteEvent) (h : notes ≠ []) :
    normalizeSort notes ≠ [] := by
  intro hnil
  have := normalizeSort_length notes
  rw [hnil] at this
  exact h (List.eq_nil_of_length_eq_zero this.symm)

theorem normalizeSort_chain0 (notes : List NoteEvent) (h : notes ≠ []) :
    List.Chain' (fun a b => a ≤ b) (0 :: (normalizeSort notes).map fun e => e.time) := by
  have hs : ((normalizeSort notes).map fun e => e.time).Pairwise (fun a b : ℚ => a ≤ b) :=
    List.Pairwise.map _ (fun _ _ hab => hab) (normalizeSort_sorted notes)
  rw [List.chain'_cons']
  refine ⟨?_, hs.chain'⟩
  intro y hy
  cases hn : normalizeSort notes with
  | nil => rw [hn] at hy; simp at hy
  | cons n0 rest =>
    rw [hn] at hy
    simp only [List.map_cons, List.head?_cons, Option.mem_def, Option.some.injEq] at hy
    have h0 : n0.time = 0 := by
      have := normalizeSort_head_time notes h
      rw [hn] at this
      simpa using this
    rw [← hy, h0]

theorem normalizeSort_int_times (notes : List NoteEvent) (hne : notes ≠ [])
    (hint : ∀ e ∈ notes, ∃ k : ℤ, e.time * 160 = (k : ℚ)) :
    ∀ t ∈ ((0 : ℚ) :: (normalizeSort notes).map fun e => e.time), ∃ k : ℤ, t * 160 = (k : ℚ) := by
  rcases firstNoteTime_mem notes hne with ⟨e0, he0, hft⟩
  rcases hint e0 he0 with ⟨k0, hk0⟩
  intro t ht
  rcases List.mem_cons.1 ht with ht | ht
  · exact ⟨0, by rw [ht]; norm_num⟩
  · rcases List.mem_map.1 ht with ⟨e, he, rfl⟩
    rcases mem_normalizeSort_time notes e he with ⟨e1, he1, ht1⟩
    rcases hint e1 he1 with ⟨k1, hk1⟩
    refine ⟨k1 - k0, ?_⟩
    rw [ht1, hft]
    push_cast
    linarith [hk1, hk0]

/-- C8 (amended): for every non-empty capture the playback-padded track
starts with the near-silent sustain note-on (delta 0, status 0x90, note 127,
velocity 1) before all user events, and its last event is the matching
sustain note-off (0x80, 127, 0) carrying the calculated remaining delta.
Under the hypotheses that every event time is a whole number of ticks and
that no two events are more than 9.6 s apart, the remaining delta is
non-negative and the note-off's absolute tick position is exactly
9.6 × 160 = 1536. (Without whole-tick times the per-gap rounding errors can
shift the note-off away from tick 1536 — see the counterexample.) -/
theorem playback_padding_amended (notes : List NoteEvent) (hne : notes ≠ [])
    (hint : ∀ e ∈ notes, ∃ k : ℤ, e.time * 160 = (k : ℚ))
    (hspan : ∀ e ∈ notes, ∀ f ∈ notes, e.time - f.time ≤ 48/5) :
    (createPlaybackTrackData notes).take 4 = [0, 144, 127, 1] ∧
    (playbackEvents notes).getLast? = some (playbackRemainingTicks notes, [128, 127, 0]) ∧
    0 ≤ playbackRemainingTicks notes ∧
    sustainOffTick notes = 1536 := by
  have hnn : normalizeSort notes ≠ [] := normalizeSort_ne_nil notes hne
  rcases firstNoteTime_mem notes hne with ⟨e0, he0, hft⟩
  rcases lastTimeFrom_mem (normalizeSort notes) 0 hnn with ⟨eL, heL, hlast⟩
  have hLint : ∃ kL : ℤ, lastNormTime notes * 160 = (kL : ℚ) := by
    refine normalizeSort_int_times notes hne hint (lastNormTime notes) ?_
    rw [lastNormTime, hlast]
    exact List.mem_cons_of_mem _ (List.mem_map.2 ⟨eL, heL, rfl⟩)
  rcases hLint with ⟨kL, hkL⟩
  have hLle : lastNormTime notes ≤ 48/5 := by
    rcases mem_normalizeSort_time notes eL heL with ⟨e1, he1, ht1⟩
    rw [lastNormTime, hlast, ht1, hft]
    exact hspan e1 he1 e0 he0
  have hrem : (playbackRemainingTicks notes : ℚ) = 1536 - lastNormTime notes * 160 := by
    have harg : (48/5 - lastNormTime notes) * 160 = ((1536 - kL : ℤ) : ℚ) := by
      push_cast
      linarith
    rw [playbackRemainingTicks, harg, jsRound_intCast]
    push_cast
    linarith
  have hsum : ((((trackEventsGo 0 (normalizeSort notes)).map Prod.fst).sum : ℤ) : ℚ)
      = lastNormTime notes * 160 := by
    rw [trackSum (normalizeSort notes) 0 (normalizeSort_chain0 notes hne)
      (normalizeSort_int_times notes hne hint), lastNormTime]
    ring
  refine ⟨?_, by rw [playbackEvents, List.getLast?_concat], ?_, ?_⟩
  · have hser : serTrack (playbackEvents notes)
        = 0 :: 144 :: 127 :: 1
          :: serTrack (trackEventsGo 0 (normalizeSort notes)
              ++ [(playbackRemainingTicks notes, [128, 127, 0])]) := by
      rw [playbackEvents, List.cons_append, serTrack_cons, serEvent,
        jsVlq_of_nonneg 0 le_rfl]
      have h0 : variableLengthQuantity (0 : ℤ).toNat = [0] := by
        rw [variableLengthQuantity]
        norm_num [vlqAux_zero]
      rw [h0]
      rfl
    rw [createPlaybackTrackData, hser]
    rfl
  · have : (0 : ℚ) ≤ (playbackRemainingTicks notes : ℚ) := by
      rw [hrem]
      linarith
    exact_mod_cast this
  · have hq : ((sustainOffTick notes : ℤ) : ℚ) = 1536 := by
      rw [sustainOffTick, playbackEvents, List.cons_append]
      simp only [List.map_cons, List.sum_cons, List.map_append, List.sum_append,
        List.map_cons, List.sum_cons, List.map_nil, List.sum_nil]
      push_cast
      push_cast at hsum
      linarith [hrem, hsum]
    exact_mod_cast hq

/-- C8 (witness): two whole-tick events (note-on at 0, note-off one tick
later): the sustain note-off lands exactly on tick 1536. -/
theorem playback_padding_amended_witness :
    sustainOffTick [⟨60, 100, 0, true⟩, ⟨60, 100, 1/160, false⟩] = 1536 ∧
    (createPlaybackTrackData [⟨60, 100, 0, true⟩, ⟨60, 100, 1/160, false⟩]).take 4
      = [0, 144, 127, 1] :=
  ⟨(playback_padding_amended _ (by simp)
      (by
        intro e he
        fin_cases he
        · exact ⟨0, by norm_num⟩
        · exact ⟨1, by norm_num⟩)
      (by
        intro e he f hf
        fin_cases he <;> fin_cases hf <;> norm_num)).2.2.2,
   (playback_padding_amended _ (by simp)
      (by
        intro e he
        fin_cases he
        · exact ⟨0, by norm_num⟩
        · exact ⟨1, by norm_num⟩)
      (by
        intro e he f hf
        fin_cases he <;> fin_cases hf <;> norm_num)).1⟩

/-- C8 (counterexample): with a note-off half a tick (1/320 s) after the
note-on, the user delta rounds up to 1 and the closing delta also rounds up
to 1536, so the sustain note-off lands on absolute tick 1537, not the
claimed exact 1536. -/
theorem playback_padding_tick_counterexample :
    sustainOffTick notesC8 = 1537 ∧ sustainOffTick notesC8 ≠ 1536 := by
  have h : sustainOffTick notesC8 = 1537 := by
    norm_num [sustainOffTick, playbackEvents, trackEventsGo, playbackRemainingTicks,
      lastNormTime, lastTimeFrom, normalizeSort, sortNotes, firstNoteTime,
      List.insertionSort, List.orderedInsert, timeLE, notesC8, deltaClamped, jsRound]
  exact ⟨h, by rw [h]; norm_num⟩

/-! ### C6: empty-capture error -/

/-- C6: with zero captured events both export entry points fail synchronously
with the "No notes recorded" error and produce no file bytes (the error is
returned instead of any byte sequence). -/
theorem empty_capture_error (s : RecState) (h : s.recordedNotes = []) :
    convertToMidiBlob s = .error "No notes recorded" ∧
    createPlaybackMidiBlob s = .error "No notes recorded" := by
  constructor <;> simp [convertToMidiBlob, createPlaybackMidiBlob, h]

/-- C6 (witness): the fresh recorder has no captured events, so both exports
fail. -/
theorem empty_capture_error_witness :
    convertToMidiBlob recInit = .error "No notes recorded" ∧
    createPlaybackMidiBlob recInit = .error "No notes recorded" :=
  empty_capture_error recInit rfl

/-! ### C7: cancellation discards data -/

/-- C7: cancelling an active session sets the canceled flag, discards every
captured event, makes a subsequent stopRecording return no events, and makes
both export attempts fail with the empty-capture error — the pre-cancel
events are never returned and never encoded. -/
theorem cancel_discards (s : RecState) (h : s.isRecording = true) :
    (cancelRecording s).1.recordedNotes = [] ∧
    (cancelRecording s).1.wasCanceled = true ∧
    (cancelRecording s).2 = true ∧
    (stopRecording (cancelRecording s).1).2 = none ∧
    (stopRecording (cancelRecording s).1).1.recordedNotes = [] ∧
    convertToMidiBlob (cancelRecording s).1 = .error "No notes recorded" ∧
    createPlaybackMidiBlob (cancelRecording s).1 = .error "No notes recorded" := by
  refine ⟨?_, ?_, ?_, ?_, ?_, ?_, ?_⟩ <;>
    simp [cancelRecording, stopRecording, clearAllState, clearAllTimers, convertToMidiBlob,
      createPlaybackMidiBlob, h]

/-- C7 (witness): cancelling an active session holding one captured note
leaves nothing exportable. -/
theorem cancel_discards_witness :
    convertToMidiBlob (cancelRecording recActive).1 = .error "No notes recorded" ∧
    (cancelRecording recActive).1.wasCanceled = true :=
  ⟨(cancel_discards _ rfl).2.2.2.2.2.1, (cancel_discards _ rfl).2.1⟩

/-! ### C9: malformed-source load -/

/-- C9 (amended): decoding an empty (or otherwise malformed) source raises a
MalformedFileError synchronously inside the load body — decoding is
all-or-nothing, so no partial event list and no scheduled notes are
produced — but `loadAndPlayWithDuration` wraps its whole body in try/catch:
the error never reaches the direct caller; the failure is reported by the
normal return value `false` with the player state untouched. -/
theorem malformed_load_amended (p : PlayerState) (fd : Option ℚ) (bytes : List ℕ)
    (msg : String) (h : midiToPlayable bytes = .error msg) :
    loadAndPlayWithDuration p bytes fd = (p, false) ∧
    loadAndPlayBody p bytes fd = .error msg ∧
    midiToPlayable [] = .error "MalformedFileError: bad file header" ∧
    decodeMidiFile [] = .error "MalformedFileError: bad file header" := by
  refine ⟨?_, ?_, rfl, rfl⟩ <;> simp [loadAndPlayWithDuration, loadAndPlayBody, h]

/-- C9 (witness): the amended behaviour at the empty source file. -/
theorem malformed_load_amended_witness :
    loadAndPlayWithDuration pInit [] none = (pInit, false) :=
  (malformed_load_amended pInit none [] "MalformedFileError: bad file header" rfl).1

/-- C9 (counterexample): loading the empty source makes the decoder raise,
but `loadAndPlayWithDuration` catches the error and returns `(p, false)`
normally — no MalformedFileError reaches the direct caller, contrary to the
claim. -/
theorem malformed_load_catch_counterexample :
    loadAndPlayBody pInit [] none = .error "MalformedFileError: bad file header" ∧
    loadAndPlayWithDuration pInit [] none = (pInit, false) :=
  ⟨rfl, rfl⟩

/-! ### C10: cancel after the session has stopped -/

/-- C10: after stopRecording has ended an active session, cancelRecording
returns early with `false`: it leaves the state completely unchanged — the
canceled flag is not set, the captured events are not discarded — and the
stopped session's events are still exportable. -/
theorem cancel_inactive_noop (s : RecState) (h : s.isRecording = true)
    (hnotes : s.recordedNotes ≠ []) :
    cancelRecording (stopRecording s).1 = ((stopRecording s).1, false) ∧
    (stopRecording s).1.recordedNotes = s.recordedNotes ∧
    (stopRecording s).1.wasCanceled = s.wasCanceled ∧
    (cancelRecording (stopRecording s).1).1.wasCanceled = s.wasCanceled ∧
    convertToMidiBlob (cancelRecording (stopRecording s).1).1
      = .ok (createMidiData s.recordedNotes) := by
  refine ⟨?_, ?_, ?_, ?_, ?_⟩ <;>
    simp [stopRecording, cancelRecording, clearAllTimers, convertToMidiBlob, h,
      List.length_eq_zero, hnotes]

/-- C10 (witness): cancelling after stop keeps the one captured note
exportable and the canceled flag unset. -/
theorem cancel_inactive_noop_witness :
    convertToMidiBlob (cancelRecording (stopRecording recActive).1).1
      = .ok (createMidiData [⟨60, 100, 0, true⟩]) ∧
    (cancelRecording (stopRecording recActive).1).1.wasCanceled = false :=
  ⟨(cancel_inactive_noop _ rfl (by simp [recActive])).2.2.2.2,
   (cancel_inactive_noop _ rfl (by simp [recActive])).2.2.2.1⟩

end BSide
